import Mathlib

/-!
Shallow embedding of the DocumentCatalog engine
(`src/DocumentCatalog.py`).

The embedding models the cataloging/merge core: the `File` /
`ExistingFile` record constructors, the lazy memoized checksum property,
`compute_checksum_for_file`, `FileCatalog.add_file` /
`insert_to_database` (buffered persistence), `load_existing_catalog`,
`check_duplicates`, `find_link_name`, and the `os.walk`-based
`search_for_new_files` with directory exclusion.

Modelling conventions:
* Python `None` for the checksum is `Option.none`; a computed hex digest
  is `some s`.  Python truthiness of `self._checksum` (`None` and `""`
  are falsy) is `pyFalsy`.
* OS calls (`os.path.isfile`, `os.path.samefile`, opening files) are
  oracles bundled in `OsModel` / a file-system map `String → FsFile`,
  so that mid-walk file removal and permission errors are expressible.
* The SQLite database is modelled as the list of inserted records, in
  insertion order; `cursor.executemany('INSERT ...')` appends.
* Python calls that can raise are `Except PyErr`; a call of
  `File.__init__` with the wrong number of positional arguments is a
  `TypeError`, modelled by pattern-matching on the argument list.
* Paths are joined with "/" (the POSIX separator); the source runs the
  same logic with `os.path.join` / `os.path.split`.
* The SHA-1 digest itself is external to the program; it enters the
  embedding as an abstract digest function parameter.  Only the digest
  input (which bytes / which string are fed) is modelled concretely.
-/

/-- Python run-time values that flow through the modelled fragments:
strings, `None`, booleans, and an opaque reference to a
`CatalogProperties` object. -/
inductive PyVal where
  | vstr (s : String)
  | vnone
  | vbool (b : Bool)
  | vprops
deriving DecidableEq, Repr

/-- Python exceptions raised by the modelled code paths:
`TypeError` (wrong call arity), the module's own `InputError`, and
`AttributeError` (assigning to a property that has no setter). -/
inductive PyErr where
  | typeError
  | inputError
  | attributeError
deriving DecidableEq, Repr

/-- Kinds of I/O failure an `open`/`read` can produce
(`PermissionError` is the one `compute_checksum_for_file` catches). -/
inductive IoFailure where
  | permission
  | notFound
  | isADirectory
  | otherFailure
deriving DecidableEq, Repr

/-- A file-system entry as seen when opening a path for reading:
either the full byte content, or a failure raised on open/read. -/
inductive FsFile where
  | readable (content : List Nat)
  | failing (e : IoFailure)

/-- Oracles for the `os.path` calls the source makes:
`isfile` backs `os.path.isfile`, `samefile` backs `os.path.samefile`. -/
structure OsModel where
  isfile : String → Bool
  samefile : String → String → Bool

/-- Python truthiness of the `_checksum` slot: `None` and the empty
string are falsy, any other string is truthy. -/
def pyFalsy : Option String → Bool
  | none => true
  | some s => s == ""

/-- Truthiness of a `PyVal` (used by `setattr` on the duplicate flag). -/
def pyTruthy : PyVal → Bool
  | .vstr s => !(s == "")
  | .vnone => false
  | .vbool b => b
  | .vprops => true

/-- Model of `os.path.split(path)[1]` (`File.find_file_name`):
the last "/"-separated component. -/
def find_file_name (p : String) : String :=
  (p.splitOn "/").getLastD ""

/-- Model of `os.path.splitext(name)[1]` (`File.find_extension`):
the extension starting at the last dot, where leading dots of a hidden
file do not begin an extension. -/
def find_extension (n : String) : String :=
  let base := n.dropWhile (fun c => c == '.')
  let parts := base.splitOn "."
  if parts.length ≤ 1 then "" else "." ++ parts.getLastD ""

/-- Model of Python's `str.lower()`: lower-case each character.
(`String.toLower` is extensionally the same but is compiled by
well-founded recursion, which the kernel cannot evaluate; this
structural form keeps the embedding executable.) -/
def pyLower (s : String) : String :=
  String.mk (s.data.map Char.toLower)

/-- Model of `os.path.join` applied down a component list. -/
def joinPath (root : String) (comps : List String) : String :=
  comps.foldl (fun acc c => acc ++ "/" ++ c) root

/-- The state of a `File` object (class `File`): constructor-assigned
fields plus the lazy `_size` / `_checksum` slots and the duplicate
flag.  `base_dir` keeps the raw second constructor argument.  The
`catalog_properties` reference, link fields and `input_info` are not
needed by any claim and are omitted. -/
structure FileRec where
  path : String
  base_dir : PyVal
  name : String
  extension : String
  _size : Option Nat
  _checksum : Option String
  duplicate : Bool
deriving DecidableEq, Repr

/-- Model of `File.__eq__`: compare the lower-cased paths first and,
only when they agree, confirm with `os.path.samefile`.  The checksum
plays no part.  (`ExistingFile.__eq__` delegates to this, unchanged.) -/
def File_eq (os : OsModel) (self other : FileRec) : Bool :=
  if pyLower self.path = pyLower other.path then
    os.samefile self.path other.path
  else
    false

/-- Model of a call of `File.__init__` with an explicit positional
argument list.  `File.__init__(self, path, base_dir,
catalog_properties)` has three required parameters, so a call with any
other arity raises `TypeError`.  The body raises the module's
`InputError` when `os.path.isfile(path)` is false, and otherwise
initialises the record fields exactly as the constructor does
(`_size = None`, `_checksum = None`, `duplicate = False`). -/
def File_init (os : OsModel) (args : List PyVal) : Except PyErr FileRec :=
  match args with
  | [PyVal.vstr path, base_dir, _catalog_properties] =>
      if os.isfile path then
        .ok { path := path
              base_dir := base_dir
              name := find_file_name path
              extension := find_extension (find_file_name path)
              _size := none
              _checksum := none
              duplicate := false }
      else
        .error .inputError
  | _ => .error .typeError

/-- Model of one read of the `File.checksum` property.
`find_checksum` is the (deterministic) value
`compute_checksum_for_file` would return for this record.  The source
is `if not self._checksum: self._checksum = self.find_checksum();
return self._checksum`, so the slot is (re)computed whenever it is
falsy.  Returns the new slot value (which is also the value handed to
the caller) together with how many times the hashing routine ran
(0 or 1). -/
def checksum_property (find_checksum : Option String) (slot : Option String) :
    Option String × Nat :=
  if pyFalsy slot then (find_checksum, 1) else (slot, 0)

/-- Read the `checksum` property `n` times in a row, starting from slot
state `slot`; returns the final slot state and the total number of
times the hashing routine ran. -/
def checksum_reads (find_checksum : Option String) (slot : Option String) :
    Nat → Option String × Nat
  | 0 => (slot, 0)
  | n + 1 =>
      let r := checksum_property find_checksum slot
      let rest := checksum_reads find_checksum r.1 n
      (rest.1, r.2 + rest.2)

/-- Model of `File.find_link_name`: a fresh SHA-1 accumulator is fed
`self.path.encode()` and nothing else, and the hex digest is returned.
The digest function is abstract; only its input matters here, and that
input is the path alone. -/
def find_link_name (sha1_hex : String → String) (f : FileRec) : String :=
  sha1_hex f.path

/-- Model of `setattr(self, attr, value)` inside
`ExistingFile.process_input_info`.  `size` and `checksum` are
`@property` descriptors of `File` with no setter, so assigning them
raises `AttributeError`; `duplicate` is a plain attribute and is
assigned. -/
def setattr_existing (f : FileRec) (attr : String) (v : PyVal) :
    Except PyErr FileRec :=
  if attr = "size" ∨ attr = "checksum" then
    .error .attributeError
  else if attr = "duplicate" then
    .ok { f with duplicate := pyTruthy v }
  else
    .ok f

/-- Model of `ExistingFile.process_input_info`: walk the imported row's
(column, value) pairs and `setattr` the recognised ones through
`key_attr = {File Size ↦ size, Checksum ↦ checksum, Duplicate ↦
duplicate}`. -/
def process_input_info (f : FileRec) (info : List (String × PyVal)) :
    Except PyErr FileRec :=
  info.foldlM
    (fun g kv =>
      if kv.1 = "File Size" then setattr_existing g "size" kv.2
      else if kv.1 = "Checksum" then setattr_existing g "checksum" kv.2
      else if kv.1 = "Duplicate" then setattr_existing g "duplicate" kv.2
      else .ok g)
    f

/-- Model of `ExistingFile.process_input`: process the row info when it
is non-empty.  (`process_input_CP` only copies `hash_function` /
`buffer_size` onto plain attributes not represented in `FileRec`; it
raises nothing and is omitted.) -/
def process_input (f : FileRec) (info : List (String × PyVal)) :
    Except PyErr FileRec :=
  if info.isEmpty then .ok f else process_input_info f info

/-- Model of `ExistingFile.__init__(self, path, info=None, CP=None)`.
Its first statement is `super().__init__(path)` — a call of
`File.__init__` with a single positional argument although three are
required — followed by `process_input`. -/
def ExistingFile_init (os : OsModel) (path : String)
    (info : List (String × PyVal)) : Except PyErr FileRec := do
  let f ← File_init os [PyVal.vstr path]
  process_input f info

/-- Model of the chunked read loop of `compute_checksum_for_file`:
`data = f.read(buffer_size); while data: h.update(data); data =
f.read(buffer_size)`.  `fed` is the byte stream fed to the hash
accumulator so far, `rest` the unread remainder of the file.  A read
with `buffer_size = 0` returns the empty bytes immediately, ending the
loop. -/
def readLoop (buffer_size : Nat) (fed : List Nat) (rest : List Nat) :
    List Nat :=
  if _hbz : buffer_size = 0 then fed
  else
    match rest with
    | [] => fed
    | a :: tl =>
        readLoop buffer_size (fed ++ (a :: tl).take buffer_size)
          ((a :: tl).drop buffer_size)
termination_by rest.length
decreasing_by
  simp only [List.length_drop, List.length_cons]
  omega

/-- Model of `compute_checksum_for_file(file_path, hash_function,
buffer_size)`.  The whole body is wrapped in
`try: ... except PermissionError: return None`, so a `PermissionError`
on open or read yields `None` (the skip result) while every other
exception propagates to the caller.  On success the hex digest of the
streamed content is returned.  (The trailing `return None` after the
`try` block in the source is unreachable.) -/
def compute_checksum_for_file (hash_hex : List Nat → String)
    (fs : String → FsFile) (file_path : String) (buffer_size : Nat) :
    Except IoFailure (Option String) :=
  match fs file_path with
  | .readable content => .ok (some (hash_hex (readLoop buffer_size [] content)))
  | .failing .permission => .ok none
  | .failing e => .error e

/-- The `CatalogProperties` fields the core engine reads:
`database_row_buffer` (the flush threshold, default 100; no command
line option ever changes it) and `exclude_dirs` (default
`['_Links']`). -/
structure CatalogProperties where
  database_row_buffer : Nat := 100
  exclude_dirs : List String := ["_Links"]
deriving DecidableEq, Repr

/-- The mutable state of a `FileCatalog` that the persistence claims
observe: `files` is `self.files` (the admitted records, in admission
order) and `db` is the `files` table of the SQLite store, modelled as
the list of inserted records in insertion order (`executemany` under a
committed transaction appends one row per tuple). -/
structure CatalogState where
  files : List FileRec
  db : List FileRec
deriving DecidableEq, Repr

/-- Python's `xs[-n:]` slice on a list: the last `n` elements for
`n > 0` (the whole list when `n` exceeds the length), and the whole
list when `n = 0`, because `xs[-0:]` is `xs[0:]`. -/
def pySliceLast (xs : List FileRec) (n : Nat) : List FileRec :=
  if n = 0 then xs else xs.drop (xs.length - n)

/-- Model of `FileCatalog.insert_to_database(row_buffer=None)`:
`if not row_buffer` (so both `None` and `0`) recomputes
`row_buffer = len(self.files) % database_row_buffer`, then appends
`[f.as_tuple() for f in self.files[-row_buffer:]]` to the store. -/
def insert_to_database (cp : CatalogProperties) (row_buffer : Option Nat)
    (s : CatalogState) : CatalogState :=
  let rb :=
    match row_buffer with
    | none => s.files.length % cp.database_row_buffer
    | some n => if n = 0 then s.files.length % cp.database_row_buffer else n
  { s with db := s.db ++ pySliceLast s.files rb }

/-- Model of `FileCatalog.add_file(file_obj)`: append the record unless
`file_obj in self.files` under `File.__eq__` (the list membership test
compares each stored element with the candidate), then — whether or
not the record was appended — flush the last `database_row_buffer`
records whenever `len(self.files)` is a multiple of the threshold. -/
def add_file (cp : CatalogProperties) (os : OsModel) (s : CatalogState)
    (f : FileRec) : CatalogState :=
  let s1 :=
    if s.files.any (fun g => File_eq os g f) then s
    else { s with files := s.files ++ [f] }
  if s1.files.length % cp.database_row_buffer = 0 then
    insert_to_database cp (some cp.database_row_buffer) s1
  else
    s1

/-- Model of `FileCatalog.load_existing_catalog`: iterate the imported
spreadsheet rows (each row is its `File Path` value plus the full
(column, value) info list), build an `ExistingFile` per row and
`add_file` it.  An empty import (`df.empty`) leaves the state
unchanged, which the empty fold also does. -/
def load_existing_catalog (os : OsModel) (cp : CatalogProperties)
    (rows : List (String × List (String × PyVal))) (s : CatalogState) :
    Except PyErr CatalogState :=
  rows.foldlM
    (fun st row => do
      let f ← ExistingFile_init os row.1 row.2
      pure (add_file cp os st f))
    s

/-- Model of the admission-then-teardown portion of
`FileCatalog.load_files` for a run without an existing catalog: each
discovered record goes through `add_file`, and afterwards
`insert_to_database()` is called once with its default argument. -/
def run_catalog (cp : CatalogProperties) (os : OsModel)
    (candidates : List FileRec) : CatalogState :=
  insert_to_database cp none (candidates.foldl (add_file cp os) ⟨[], []⟩)

/-- The recursive pass of `FileCatalog.check_duplicates` over the
admitted records' checksum values, carrying the `hash_map` key set:
a checksum already in the map marks the record duplicate; otherwise
the record is marked non-duplicate and its checksum is inserted.
A `None` checksum is an ordinary dictionary key. -/
def check_duplicates_go (hash_map : List (Option String)) :
    List (Option String) → List Bool
  | [] => []
  | c :: rest =>
      if c ∈ hash_map then true :: check_duplicates_go hash_map rest
      else false :: check_duplicates_go (c :: hash_map) rest

/-- Model of `FileCatalog.check_duplicates`: the single pass starting
from an empty `hash_map`, producing each record's resulting
`duplicate` flag, in admission order (all Existing-origin records
first, then the walked New-origin records). -/
def check_duplicates (files : List (Option String)) : List Bool :=
  check_duplicates_go [] files

/-- The column list of the `files` table created by
`FileCatalog.create_database`.  There is no key column. -/
def files_table_columns : List String :=
  ["rel_path", "filename", "extension", "size", "human_readable", "checksum"]

/-- A directory tree as enumerated by `os.walk`: named subdirectories
(in listing order) and the plain file names of the current
directory. -/
inductive DirTree where
  | node (dirs : List (String × DirTree)) (files : List String)

/-- Python's `dirs.remove(name)` on the subdirectory list: remove the
first entry with the given name. -/
def eraseName : List (String × DirTree) → String → List (String × DirTree)
  | [], _ => []
  | d :: rest, x => if d.1 = x then rest else d :: eraseName rest x

/-- Model of the in-place pruning loop of
`FileCatalog.search_for_new_files`:
`for exclude_dir in exclude_dirs: if exclude_dir in dirs:
dirs.remove(exclude_dir)`, run before `os.walk` descends. -/
def pruneDirs (dirs : List (String × DirTree)) (excludes : List String) :
    List (String × DirTree) :=
  excludes.foldl
    (fun acc e => if acc.any (fun d => d.1 = e) then eraseName acc e else acc)
    dirs

/-- Relative component paths (directory components then the file name)
of every file `os.walk` hands to the search loop, in traversal order:
the files of the current directory first, then — after the exclusion
pruning — each surviving subdirectory, depth first. -/
def walk_rel (excludes : List String) : DirTree → List (List String)
  | .node dirs files =>
      files.map (fun f => [f]) ++
        (pruneDirs dirs excludes).attach.flatMap
          (fun d => (walk_rel excludes d.1.2).map (fun p => d.1.1 :: p))
termination_by t => sizeOf t
decreasing_by
  have hsub : ∀ (ex : List String) (ds : List (String × DirTree))
      (x : String × DirTree), x ∈ pruneDirs ds ex → x ∈ ds := by
    intro ex
    induction ex with
    | nil => intro ds x hx; exact hx
    | cons e rest ih =>
        intro ds x hx
        have hx2 : x ∈ pruneDirs
            (if ds.any (fun d => d.1 = e) then eraseName ds e else ds) rest := hx
        have hx3 := ih _ x hx2
        by_cases hany : ds.any (fun d => d.1 = e)
        · rw [if_pos hany] at hx3
          have her : ∀ (ds0 : List (String × DirTree)),
              x ∈ eraseName ds0 e → x ∈ ds0 := by
            intro ds0
            induction ds0 with
            | nil => intro hmem; exact hmem
            | cons a tl ihe =>
                intro hmem
                by_cases ha : a.1 = e
                · simp only [eraseName, if_pos ha] at hmem
                  exact List.mem_cons_of_mem _ hmem
                · simp only [eraseName, if_neg ha] at hmem
                  rcases List.mem_cons.mp hmem with h1 | h1
                  · exact h1 ▸ List.mem_cons_self _ _
                  · exact List.mem_cons_of_mem _ (ihe h1)
          exact her ds hx3
        · rw [if_neg hany] at hx3; exact hx3
  have hmem : d.1 ∈ dirs := hsub excludes dirs d.1 d.2
  have h1 : sizeOf d.1 < sizeOf dirs := List.sizeOf_lt_of_mem hmem
  have h2 : sizeOf d.1.2 < sizeOf d.1 := by
    obtain ⟨a, b⟩ := d.1
    simp only [Prod.mk.sizeOf_spec]
    omega
  simp only [DirTree.node.sizeOf_spec]
  omega

/-- Full paths of the walked files under one search root, in traversal
order (`file_path = os.path.join(root, f)`). -/
def walk_paths (excludes : List String) (root : String) (t : DirTree) :
    List String :=
  (walk_rel excludes t).map (joinPath root)

/-- Model of the body of `FileCatalog.search_for_new_files` for one
search directory: for every enumerated path, `File(file_path,
search_dir, catalog_properties)` is constructed — with no surrounding
try/except — and handed to `add_file`. -/
def search_root (os : OsModel) (cp : CatalogProperties) (root : String)
    (t : DirTree) (s : CatalogState) : Except PyErr CatalogState :=
  (walk_paths cp.exclude_dirs root t).foldlM
    (fun st p => do
      let f ← File_init os [PyVal.vstr p, PyVal.vstr root, PyVal.vprops]
      pure (add_file cp os st f))
    s

/-- Model of `FileCatalog.search_for_new_files` over all search roots
(each root given with the tree it spans). -/
def search_for_new_files (os : OsModel) (cp : CatalogProperties)
    (roots : List (String × DirTree)) (s : CatalogState) :
    Except PyErr CatalogState :=
  roots.foldlM (fun st r => search_root os cp r.1 r.2 st) s

/-- Well-formedness of a directory tree as a real file system provides
it: the names of sibling subdirectories are pairwise distinct, at
every level. -/
inductive TreeWF : DirTree → Prop where
  | node : ∀ (dirs : List (String × DirTree)) (files : List String),
      (dirs.map Prod.fst).Nodup →
      (∀ d ∈ dirs, TreeWF d.2) →
      TreeWF (DirTree.node dirs files)

/-- An `OsModel` for runs in which every path exists and `samefile`
is plain path equality. -/
def osAll : OsModel :=
  { isfile := fun _ => true, samefile := fun a b => a == b }

/-- Default catalog properties (flush threshold 100, excludes
`_Links`). -/
def cpDefault : CatalogProperties := {}

/-- Catalog properties with flush threshold 2, for the teardown
counterexample run. -/
def cpBuf2 : CatalogProperties := { database_row_buffer := 2 }

/-- A walked record at `r/a.txt`. -/
def fileA : FileRec :=
  { path := "r/a.txt", base_dir := .vstr "r", name := "a.txt"
    extension := ".txt", _size := none, _checksum := none
    duplicate := false }

/-- A walked record at `r/b.txt`. -/
def fileB : FileRec :=
  { path := "r/b.txt", base_dir := .vstr "r", name := "b.txt"
    extension := ".txt", _size := none, _checksum := none
    duplicate := false }

/-- A record at `docs/a.txt` whose checksum resolved to `"X"`. -/
def recChkX : FileRec :=
  { path := "docs/a.txt", base_dir := .vstr "docs", name := "a.txt"
    extension := ".txt", _size := none, _checksum := some "X"
    duplicate := false }

/-- A record at `docs/b.txt` with the same checksum `"X"` but a
different path. -/
def recChkXother : FileRec :=
  { path := "docs/b.txt", base_dir := .vstr "docs", name := "b.txt"
    extension := ".txt", _size := none, _checksum := some "X"
    duplicate := false }

/-- A record at `docs/a.txt` whose checksum resolved to `"Y"`:
same path as `recChkX`, different content checksum. -/
def recChkY : FileRec :=
  { path := "docs/a.txt", base_dir := .vstr "docs", name := "a.txt"
    extension := ".txt", _size := none, _checksum := some "Y"
    duplicate := false }

/-- An `OsModel` in which `r/b` vanished between enumeration and the
`os.path.isfile` check in `File.__init__`. -/
def osMissingB : OsModel :=
  { isfile := fun p => !(p == "r/b"), samefile := fun a b => a == b }

/-- A file system in which every path fails with `FileNotFoundError`
on open. -/
def fsGone : String → FsFile := fun _ => .failing .notFound

/-- A digest model used where a concrete digest is needed: the length
of the byte stream, rendered as a string.  (Only the digest input
matters to the claims.) -/
def hashLen : List Nat → String := fun bs => toString bs.length

/-- A well-formed tree with an excluded subdirectory `tmp`, a kept
subdirectory `docs`, and a root file. -/
def wfTree : DirTree :=
  DirTree.node [("tmp", DirTree.node [] ["d.txt"]), ("docs", DirTree.node [] ["a.txt"])]
    ["root.txt"]

/-! ## General lemmas about the embedded operations -/

/-- `File.__eq__` returns `True` exactly when the lower-cased paths
agree and `os.path.samefile` confirms. -/
theorem File_eq_eq_true (os : OsModel) (g f : FileRec) :
    File_eq os g f = true ↔
      (pyLower g.path = pyLower f.path ∧ os.samefile g.path f.path = true) := by
  unfold File_eq
  by_cases h : pyLower g.path = pyLower f.path
  · simp [h]
  · simp [h]

/-- `add_file` never changes the admitted list through the flush: its
`files` component is the membership-guarded append alone. -/
theorem add_file_files (cp : CatalogProperties) (os : OsModel)
    (s : CatalogState) (f : FileRec) :
    (add_file cp os s f).files =
      if s.files.any (fun g => File_eq os g f) then s.files
      else s.files ++ [f] := by
  unfold add_file insert_to_database
  by_cases h : s.files.any (fun g => File_eq os g f)
  · simp only [if_pos h]
    split <;> rfl
  · simp only [if_neg h]
    split <;> rfl

/-- Once the checksum slot holds a truthy value, further property
reads neither change it nor rerun the hashing routine. -/
theorem checksum_reads_stable (find_checksum : Option String)
    (slot : Option String) (h : pyFalsy slot = false) :
    ∀ n, checksum_reads find_checksum slot n = (slot, 0) := by
  intro n
  induction n with
  | zero => rfl
  | succ k ih =>
      simp only [checksum_reads, checksum_property, h, Bool.false_eq_true,
        if_neg, ite_false, ih]

/-- A `None` checksum slot is recomputed by every read: `n` reads run
the hashing routine `n` times and leave the slot `None`. -/
theorem checksum_reads_none (n : Nat) :
    checksum_reads none none n = (none, n) := by
  induction n with
  | zero => rfl
  | succ k ih =>
      simp only [checksum_reads, checksum_property, pyFalsy, if_pos, ih]
      exact Prod.ext rfl (Nat.add_comm 1 k)

/-- Position-wise description of the duplicate pass: the flag of the
record at position `i` is set exactly when its checksum is in the
carried `hash_map` or appears at an earlier position. -/
theorem check_duplicates_go_spec :
    ∀ (files : List (Option String)) (seen : List (Option String))
      (i : Nat) (x : Option String), files[i]? = some x →
      (check_duplicates_go seen files)[i]? =
        some (decide (x ∈ seen ∨ ∃ j, j < i ∧ files[j]? = some x)) := by
  intro files
  induction files with
  | nil => intro seen i x hx; simp at hx
  | cons c rest ih =>
      intro seen i x hx
      cases i with
      | zero =>
          have hcx : c = x := by simpa using hx
          subst hcx
          by_cases hc : c ∈ seen
          · simp [check_duplicates_go, if_pos hc, hc]
          · simp [check_duplicates_go, if_neg hc, hc]
      | succ k =>
          have hx' : rest[k]? = some x := by simpa using hx
          have hiff : (x ∈ seen ∨ x = c ∨ ∃ j, j < k ∧ rest[j]? = some x) ↔
              (x ∈ seen ∨ ∃ j, j < k + 1 ∧ (c :: rest)[j]? = some x) := by
            constructor
            · rintro (hs | hxc | ⟨j, hj, hjx⟩)
              · exact Or.inl hs
              · exact Or.inr ⟨0, Nat.succ_pos k, by simp [hxc]⟩
              · exact Or.inr ⟨j + 1, Nat.succ_lt_succ hj, by simpa using hjx⟩
            · rintro (hs | ⟨j, hj, hjx⟩)
              · exact Or.inl hs
              · cases j with
                | zero =>
                    have : c = x := by simpa using hjx
                    exact Or.inr (Or.inl this.symm)
                | succ j' =>
                    exact Or.inr (Or.inr ⟨j', Nat.lt_of_succ_lt_succ hj,
                      by simpa using hjx⟩)
          by_cases hc : c ∈ seen
          · have hgo := ih seen k x hx'
            have hsk : (x ∈ seen ∨ ∃ j, j < k ∧ rest[j]? = some x) ↔
                (x ∈ seen ∨ ∃ j, j < k + 1 ∧ (c :: rest)[j]? = some x) := by
              constructor
              · rintro (hs | he)
                · exact hiff.mp (Or.inl hs)
                · exact hiff.mp (Or.inr (Or.inr he))
              · intro h2
                rcases hiff.mpr h2 with hs | hxc | he
                · exact Or.inl hs
                · exact Or.inl (hxc ▸ hc)
                · exact Or.inr he
            calc (check_duplicates_go seen (c :: rest))[k + 1]?
                = (check_duplicates_go seen rest)[k]? := by
                  simp [check_duplicates_go, if_pos hc]
              _ = some (decide (x ∈ seen ∨ ∃ j, j < k ∧ rest[j]? = some x)) := hgo
              _ = some (decide (x ∈ seen ∨ ∃ j, j < k + 1 ∧
                    (c :: rest)[j]? = some x)) := by
                  exact congrArg some (decide_eq_decide.mpr hsk)
          · have hgo := ih (c :: seen) k x hx'
            have hsk : (x ∈ c :: seen ∨ ∃ j, j < k ∧ rest[j]? = some x) ↔
                (x ∈ seen ∨ ∃ j, j < k + 1 ∧ (c :: rest)[j]? = some x) := by
              constructor
              · rintro (hs | he)
                · rcases List.mem_cons.mp hs with hxc | hs'
                  · exact hiff.mp (Or.inr (Or.inl hxc))
                  · exact hiff.mp (Or.inl hs')
                · exact hiff.mp (Or.inr (Or.inr he))
              · intro h2
                rcases hiff.mpr h2 with hs | hxc | he
                · exact Or.inl (List.mem_cons_of_mem _ hs)
                · exact Or.inl (hxc ▸ List.mem_cons_self c seen)
                · exact Or.inr he
            calc (check_duplicates_go seen (c :: rest))[k + 1]?
                = (check_duplicates_go (c :: seen) rest)[k]? := by
                  simp [check_duplicates_go, if_neg hc]
              _ = some (decide (x ∈ c :: seen ∨ ∃ j, j < k ∧ rest[j]? = some x)) :=
                  hgo
              _ = some (decide (x ∈ seen ∨ ∃ j, j < k + 1 ∧
                    (c :: rest)[j]? = some x)) := by
                  exact congrArg some (decide_eq_decide.mpr hsk)

/-! ## Claim theorems -/

/-- C1: the claim states that running with an imported existing catalog
of 2 known files loads both records as `Existing` without error.  In
the code, `ExistingFile.__init__` calls `super().__init__(path)` while
`File.__init__` requires `(path, base_dir, catalog_properties)`, so the
very first imported row raises `TypeError`: loading this 2-row catalog
errors out instead of seeding 2 records. -/
theorem claim_C1_existing_load_raises :
    load_existing_catalog osAll cpDefault
      [("a.txt", [("Checksum", PyVal.vstr "X")]),
       ("b.txt", [("Checksum", PyVal.vstr "Y")])]
      ⟨[], []⟩ = .error .typeError := rfl

/-- C2: the claim states that after teardown the store holds exactly
one row per admitted record.  With flush threshold 2 and 2 admitted
records, the intermediate flush writes both rows, and the teardown
`insert_to_database()` recomputes `row_buffer = 2 % 2 = 0`, so
`self.files[-0:]` is the whole admitted list and both rows are
inserted a second time: 4 rows for 2 admitted records. -/
theorem claim_C2_teardown_duplicates_rows :
    (run_catalog cpBuf2 osAll [fileA, fileB]).files = [fileA, fileB] ∧
      (run_catalog cpBuf2 osAll [fileA, fileB]).db =
        [fileA, fileB, fileA, fileB] := by
  constructor
  · decide
  · decide

/-- C3: over any final admitted sequence of checksum values, a record's
duplicate flag ends up `False` exactly when no earlier admitted record
carries the same checksum; hence, of the `k > 1` records sharing a
checksum, precisely the first in Existing-then-New/traversal order is
non-duplicate and every later one is duplicate. -/
theorem claim_C3_duplicate_tie_break (files : List (Option String))
    (c : Option String) (_hcount : 1 < files.count c) (i : Nat)
    (hi : files[i]? = some c) :
    ((check_duplicates files)[i]? = some false ↔
      ∀ j, j < i → files[j]? ≠ some c) := by
  have h := check_duplicates_go_spec files [] i c hi
  rw [check_duplicates, h]
  constructor
  · intro hfalse j hj hjc
    have : decide (c ∈ ([] : List (Option String)) ∨
        ∃ j, j < i ∧ files[j]? = some c) = false := by
      exact Option.some_inj.mp hfalse
    have hnot := of_decide_eq_false this
    exact hnot (Or.inr ⟨j, hj, hjc⟩)
  · intro hall
    have : ¬(c ∈ ([] : List (Option String)) ∨
        ∃ j, j < i ∧ files[j]? = some c) := by
      rintro (hmem | ⟨j, hj, hjc⟩)
      · simp at hmem
      · exact hall j hj hjc
    exact congrArg some (decide_eq_false this)

/-- Witness for C3 at a concrete input: in `[X, X, Y]` the checksum `X`
is shared by two records and the record at position 1 is not the first
`X`, so its flag is not `False`. -/
theorem claim_C3_witness :
    (1 < ([some "X", some "X", some "Y"] : List (Option String)).count
      (some "X")) ∧
    (((check_duplicates [some "X", some "X", some "Y"])[1]? = some false) ↔
      ∀ j, j < 1 →
        ([some "X", some "X", some "Y"] : List (Option String))[j]? ≠
          some (some "X")) :=
  ⟨by decide,
    claim_C3_duplicate_tie_break [some "X", some "X", some "Y"] (some "X")
      (by decide) 1 rfl⟩

/-- C4: the claim states that, in content-check mode, two records with
known equal checksums are the same catalog entry and the later one is
not re-admitted.  In the code, `File.__eq__` compares paths only:
`recChkX` and `recChkXother` both carry known checksum `"X"`, yet they
compare unequal, and `add_file` admits the second one alongside the
first. -/
theorem claim_C4_counterexample :
    recChkX._checksum = some "X" ∧ recChkXother._checksum = some "X" ∧
      File_eq osAll recChkX recChkXother = false ∧
      (add_file cpDefault osAll ⟨[recChkX], [recChkX]⟩ recChkXother).files =
        [recChkX, recChkXother] := by
  refine ⟨rfl, rfl, by decide, by decide⟩

/-- C4 (amended): admission equality is the path rule of `File.__eq__`
— a candidate is rejected by `add_file` exactly when some admitted
record has the same lower-cased path and `os.path.samefile` confirms —
and the candidate's checksum has no influence on the admission
outcome. -/
theorem claim_C4_amended (os : OsModel) (cp : CatalogProperties)
    (s : CatalogState) (f : FileRec) :
    ((add_file cp os s f).files = s.files ↔
      ∃ g ∈ s.files, pyLower g.path = pyLower f.path ∧
        os.samefile g.path f.path = true) ∧
    ∀ ck, (add_file cp os s { f with _checksum := ck }).files.length =
      (add_file cp os s f).files.length := by
  constructor
  · rw [add_file_files]
    by_cases hany : s.files.any (fun g => File_eq os g f)
    · rw [if_pos hany]
      simp only [true_iff, eq_self_iff_true]
      rcases List.any_eq_true.mp hany with ⟨g, hg, hge⟩
      exact ⟨g, hg, (File_eq_eq_true os g f).mp hge⟩
    · rw [if_neg hany]
      constructor
      · intro habs
        have := congrArg List.length habs
        simp at this
      · rintro ⟨g, hg, hge⟩
        exact absurd (List.any_eq_true.mpr
          ⟨g, hg, (File_eq_eq_true os g f).mpr hge⟩) hany
  · intro ck
    have hfe : (fun g => File_eq os g { f with _checksum := ck }) =
        (fun g => File_eq os g f) := funext (fun g => rfl)
    rw [add_file_files, add_file_files, hfe]
    by_cases hany : s.files.any (fun g => File_eq os g f)
    · rw [if_pos hany, if_pos hany]
    · rw [if_neg hany, if_neg hany]
      simp

/-- C6: the claim states identity resolution never propagates an I/O
failure.  In the code only `PermissionError` is caught: on a path whose
open raises `FileNotFoundError`, `compute_checksum_for_file` propagates
the exception instead of returning the skip result. -/
theorem claim_C6_counterexample :
    compute_checksum_for_file hashLen fsGone "gone.txt" 65536 =
      .error .notFound := rfl

/-- C6 (amended): `compute_checksum_for_file` returns the skip result
(`None`) exactly on a `PermissionError`; any other open/read failure
propagates as an exception, and a readable file always yields a
digest. -/
theorem claim_C6_amended (hash_hex : List Nat → String)
    (fs : String → FsFile) (p : String) (buf : Nat) :
    (compute_checksum_for_file hash_hex fs p buf = .ok none ↔
      fs p = .failing .permission) ∧
    ∀ e, (compute_checksum_for_file hash_hex fs p buf = .error e ↔
      (fs p = .failing e ∧ e ≠ .permission)) := by
  cases hfs : fs p with
  | readable content =>
      constructor
      · simp [compute_checksum_for_file, hfs]
      · intro e; simp [compute_checksum_for_file, hfs]
  | failing e0 =>
      cases e0 with
      | permission =>
          constructor
          · simp [compute_checksum_for_file, hfs]
          · intro e
            constructor
            · intro habs
              simp [compute_checksum_for_file, hfs] at habs
            · rintro ⟨he, hne⟩
              cases he
              exact absurd rfl hne
      | notFound =>
          constructor
          · simp [compute_checksum_for_file, hfs]
          · intro e
            constructor
            · intro hh
              simp only [compute_checksum_for_file, hfs] at hh
              cases hh
              exact ⟨rfl, by simp⟩
            · rintro ⟨he, _⟩
              cases he
              simp [compute_checksum_for_file, hfs]
      | isADirectory =>
          constructor
          · simp [compute_checksum_for_file, hfs]
          · intro e
            constructor
            · intro hh
              simp only [compute_checksum_for_file, hfs] at hh
              cases hh
              exact ⟨rfl, by simp⟩
            · rintro ⟨he, _⟩
              cases he
              simp [compute_checksum_for_file, hfs]
      | otherFailure =>
          constructor
          · simp [compute_checksum_for_file, hfs]
          · intro e
            constructor
            · intro hh
              simp only [compute_checksum_for_file, hfs] at hh
              cases hh
              exact ⟨rfl, by simp⟩
            · rintro ⟨he, _⟩
              cases he
              simp [compute_checksum_for_file, hfs]

/-- C7: the claim states the hashing routine runs at most once per
record whatever the first result was.  In the code the memoization
guard is `if not self._checksum`, and a skip result (`None`) is falsy:
two property reads on a record whose checksum resolves to `None` run
the routine twice. -/
theorem claim_C7_counterexample : (checksum_reads none none 2).2 = 2 := rfl

/-- C7 (amended): when the first computation yields a (non-empty)
checksum string, any number of property reads runs the hashing routine
at most once; when it yields the skip result `None`, every read reruns
the routine. -/
theorem claim_C7_amended (s : String) (hs : s ≠ "") :
    (∀ n, (checksum_reads (some s) none n).2 ≤ 1) ∧
    ∀ n, (checksum_reads none none n).2 = n := by
  constructor
  · intro n
    cases n with
    | zero => exact Nat.zero_le 1
    | succ k =>
        have hslot : pyFalsy (some s) = false := by
          simp [pyFalsy]
          exact hs
        simp only [checksum_reads, checksum_property, pyFalsy, if_pos,
          checksum_reads_stable (some s) (some s) hslot k]
        omega
  · intro n
    rw [checksum_reads_none n]

/-- Witness for C7 at a concrete input: three reads with a memoized
`"x"` run the routine once; three reads with a `None` result run it
three times. -/
theorem claim_C7_witness :
    ("x" : String) ≠ "" ∧ (checksum_reads (some "x") none 3).2 ≤ 1 ∧
      (checksum_reads none none 3).2 = 3 :=
  ⟨by decide, (claim_C7_amended "x" (by decide)).1 3,
    (claim_C7_amended "x" (by decide)).2 3⟩

/-- C8: the claim states that two records with the same path but
different content checksums have different keys.  In the code,
`find_link_name` feeds only `self.path` to the digest, so `recChkX`
and `recChkY` — same path, checksums `"X"` and `"Y"` — receive the
same key under any digest function (their digest inputs coincide;
shown here at a concrete digest model). -/
theorem claim_C8_counterexample :
    recChkX.path = recChkY.path ∧ recChkX._checksum ≠ recChkY._checksum ∧
      find_link_name id recChkX = find_link_name id recChkY :=
  ⟨rfl, by decide, rfl⟩

/-- C8 (amended): the derived key is a deterministic function of the
absolute path alone — records sharing a path share the key whatever
their checksums — and the persisted `files` table has no key column at
all. -/
theorem claim_C8_amended :
    (∀ (sha1_hex : String → String) (a b : FileRec), a.path = b.path →
      find_link_name sha1_hex a = find_link_name sha1_hex b) ∧
    "file_key" ∉ files_table_columns := by
  constructor
  · intro sha1_hex a b hp
    simp [find_link_name, hp]
  · decide

/-- Witness for C8 at a concrete input: the two same-path records of
the counterexample indeed share a key. -/
theorem claim_C8_witness :
    recChkX.path = recChkY.path ∧
      find_link_name id recChkX = find_link_name id recChkY :=
  ⟨rfl, claim_C8_amended.1 id recChkX recChkY rfl⟩

/-- C10: among the admitted records whose checksum resolved to `None`,
the duplicate pass treats `None` as a shared dictionary key: a record
with a `None` checksum is marked duplicate exactly when an earlier
admitted record also has a `None` checksum, so the first such record
is canonical and all later ones are flagged. -/
theorem claim_C10_none_checksum (files : List (Option String)) (i : Nat)
    (hi : files[i]? = some none) :
    ((check_duplicates files)[i]? = some true ↔
      ∃ j, j < i ∧ files[j]? = some none) := by
  have h := check_duplicates_go_spec files [] i none hi
  rw [check_duplicates, h]
  constructor
  · intro htrue
    have : decide ((none : Option String) ∈ ([] : List (Option String)) ∨
        ∃ j, j < i ∧ files[j]? = some none) = true :=
      Option.some_inj.mp htrue
    rcases of_decide_eq_true this with hmem | he
    · simp at hmem
    · exact he
  · intro he
    have : ((none : Option String) ∈ ([] : List (Option String)) ∨
        ∃ j, j < i ∧ files[j]? = some none) := Or.inr he
    exact congrArg some (decide_eq_true this)

/-- Witness for C10 at a concrete input: with checksums
`[None, "x", None]`, the record at position 2 has a `None` checksum
and an earlier `None` exists at position 0. -/
theorem claim_C10_witness :
    (([none, some "x", none] : List (Option String))[2]? = some none) ∧
    (((check_duplicates [none, some "x", none])[2]? = some true) ↔
      ∃ j, j < 2 ∧
        ([none, some "x", none] : List (Option String))[j]? = some none) :=
  ⟨rfl, claim_C10_none_checksum [none, some "x", none] 2 rfl⟩

/-! ## Lemmas about the walker -/

/-- `Except.ok` feeds the continuation of a bind. -/
theorem pybind_ok {α β : Type} (v : α) (g : α → Except PyErr β) :
    (Except.ok v >>= g) = g v := rfl

/-- `Except.error` short-circuits a bind. -/
theorem pybind_error {α β : Type} (e : PyErr) (g : α → Except PyErr β) :
    ((Except.error e : Except PyErr α) >>= g) = .error e := rfl

/-- Removing one named entry yields a sublist. -/
theorem eraseName_sublist (ds : List (String × DirTree)) (x : String) :
    List.Sublist (eraseName ds x) ds := by
  induction ds with
  | nil => exact List.Sublist.refl []
  | cons a tl ih =>
      by_cases ha : a.1 = x
      · simp only [eraseName, if_pos ha]
        exact List.Sublist.cons a (List.Sublist.refl tl)
      · simp only [eraseName, if_neg ha]
        exact List.Sublist.cons₂ a ih

/-- Pruning only removes entries. -/
theorem mem_pruneDirs :
    ∀ (ex : List String) (ds : List (String × DirTree))
      (d : String × DirTree), d ∈ pruneDirs ds ex → d ∈ ds := by
  intro ex
  induction ex with
  | nil => intro ds d hd; exact hd
  | cons e rest ih =>
      intro ds d hd
      have hd' : d ∈ (if ds.any (fun d => d.1 = e) then eraseName ds e
          else ds) := ih _ d hd
      by_cases hany : ds.any (fun d => d.1 = e)
      · rw [if_pos hany] at hd'
        exact (eraseName_sublist ds e).mem hd'
      · rw [if_neg hany] at hd'
        exact hd'

/-- One pruning step for the excluded name `e` leaves no entry named
`e`, provided the sibling names are distinct. -/
theorem pruneStep_no_name (ds : List (String × DirTree)) (e : String)
    (hnd : (ds.map Prod.fst).Nodup) :
    ∀ d ∈ (if ds.any (fun d => d.1 = e) then eraseName ds e else ds),
      d.1 ≠ e := by
  by_cases hany : ds.any (fun d => d.1 = e)
  · rw [if_pos hany]
    clear hany
    induction ds with
    | nil => intro d hd; simp [eraseName] at hd
    | cons a tl ih =>
        intro d hd hde
        have hhead : a.1 ∉ tl.map Prod.fst := (List.nodup_cons.mp hnd).1
        have htl : (tl.map Prod.fst).Nodup := (List.nodup_cons.mp hnd).2
        by_cases ha : a.1 = e
        · rw [eraseName, if_pos ha] at hd
          exact hhead (by
            have : d.1 ∈ tl.map Prod.fst := List.mem_map_of_mem Prod.fst hd
            rw [hde, ← ha] at this
            exact this)
        · rw [eraseName, if_neg ha] at hd
          rcases List.mem_cons.mp hd with hda | hdtl
          · exact ha (hda ▸ hde)
          · exact ih htl d hdtl hde
  · rw [if_neg hany]
    intro d hd hde
    exact hany (List.any_eq_true.mpr ⟨d, hd, by simp [hde]⟩)

/-- Unfolding of `pruneDirs` one excluded name at a time. -/
theorem pruneDirs_cons (ds : List (String × DirTree)) (e : String)
    (rest : List String) :
    pruneDirs ds (e :: rest) =
      pruneDirs (if ds.any (fun d => d.1 = e) then eraseName ds e else ds)
        rest := rfl

/-- With pairwise-distinct sibling names, every subdirectory surviving
the pruning loop has a name outside the exclusion set. -/
theorem pruneDirs_not_excluded :
    ∀ (ex : List String) (ds : List (String × DirTree)),
      (ds.map Prod.fst).Nodup → ∀ d ∈ pruneDirs ds ex, d.1 ∉ ex := by
  intro ex
  induction ex with
  | nil => intro ds _ d _ hmem; exact List.not_mem_nil _ hmem
  | cons e rest ih =>
      intro ds hnd d hd
      rw [pruneDirs_cons] at hd
      have hnd' : (((if ds.any (fun d => d.1 = e) then eraseName ds e
          else ds)).map Prod.fst).Nodup := by
        by_cases hany : ds.any (fun d => d.1 = e)
        · rw [if_pos hany]
          exact hnd.sublist ((eraseName_sublist ds e).map Prod.fst)
        · rw [if_neg hany]; exact hnd
      have hrest : d.1 ∉ rest := ih _ hnd' d hd
      have hds' : d ∈ (if ds.any (fun d => d.1 = e) then eraseName ds e
          else ds) := mem_pruneDirs rest _ d hd
      have hde : d.1 ≠ e := pruneStep_no_name ds e hnd d hds'
      intro hmem
      rcases List.mem_cons.mp hmem with h1 | h1
      · exact hde h1
      · exact hrest h1

/-- Pruning an empty subdirectory list yields the empty list. -/
theorem pruneDirs_nil : ∀ ex : List String, pruneDirs [] ex = [] := by
  intro ex
  induction ex with
  | nil => rfl
  | cons e rest ih =>
      rw [pruneDirs_cons]
      simpa using ih

/-- The defining equation of `walk_rel` on a node. -/
theorem walk_rel_node (ex : List String) (dirs : List (String × DirTree))
    (files : List String) :
    walk_rel ex (DirTree.node dirs files) =
      files.map (fun f => [f]) ++
        (pruneDirs dirs ex).attach.flatMap
          (fun d => (walk_rel ex d.1.2).map (fun p => d.1.1 :: p)) := by
  rw [walk_rel]

/-- The walk of a leaf directory lists exactly its files. -/
theorem walk_rel_leaf (ex : List String) (files : List String) :
    walk_rel ex (DirTree.node [] files) = files.map (fun f => [f]) := by
  rw [walk_rel_node, pruneDirs_nil]
  simp

/-- A pair weighs more than its second component. -/
theorem sizeOf_snd_lt (x : String × DirTree) : sizeOf x.2 < sizeOf x := by
  obtain ⟨a, b⟩ := x
  simp only [Prod.mk.sizeOf_spec]
  omega

/-- C9 (counterexample part): the claim states no admitted record's
path contains an excluded name as a path component.  The pruning in
`search_for_new_files` applies to directory names only: a plain file
that itself bears an excluded name is walked and admitted, and its
final path component is the excluded name. -/
theorem claim_C9_counterexample :
    ∃ comps ∈ walk_rel ["tmp"] (DirTree.node [] ["tmp"]),
      ∃ c ∈ comps, c ∈ ["tmp"] := by
  rw [walk_rel_leaf]
  exact ⟨["tmp"], by simp, "tmp", by simp, by simp⟩

/-- C9 (amended): over any well-formed tree (pairwise-distinct sibling
directory names, as a real file system guarantees), no walked record
has an excluded name among its directory components — the name of
every subdirectory descended into is checked against the exclusion
set at its own level, so exclusion holds at every depth, not just the
root.  Only the final file-name component can coincide with an
excluded name. -/
theorem claim_C9_amended (excludes : List String) (t : DirTree)
    (hwf : TreeWF t) :
    ∀ comps ∈ walk_rel excludes t, ∀ c ∈ comps.dropLast, c ∉ excludes := by
  suffices h : ∀ (n : Nat) (t : DirTree), sizeOf t ≤ n → TreeWF t →
      ∀ comps ∈ walk_rel excludes t, ∀ c ∈ comps.dropLast, c ∉ excludes by
    exact h (sizeOf t) t (Nat.le_refl _) hwf
  intro n
  induction n with
  | zero =>
      intro t hle
      exfalso
      cases t with
      | node dirs files =>
          simp only [DirTree.node.sizeOf_spec] at hle
          omega
  | succ n ih =>
      intro t hle hwf comps hcomps c hc
      cases t with
      | node dirs files =>
          rw [walk_rel_node] at hcomps
          rcases List.mem_append.mp hcomps with hfile | hsub
          · rcases List.mem_map.mp hfile with ⟨f, _, rfl⟩
            simp at hc
          · rcases List.mem_flatMap.mp hsub with ⟨d, _, hmap⟩
            rcases List.mem_map.mp hmap with ⟨p, hp, rfl⟩
            have hdmem : d.1 ∈ dirs := mem_pruneDirs excludes dirs d.1 d.2
            cases hwf with
            | node _ _ hnd hsubs =>
                have hwfd : TreeWF d.1.2 := hsubs d.1 hdmem
                have hsize : sizeOf d.1.2 ≤ n := by
                  have h1 : sizeOf d.1 < sizeOf dirs :=
                    List.sizeOf_lt_of_mem hdmem
                  have h2 : sizeOf d.1.2 < sizeOf d.1 := sizeOf_snd_lt d.1
                  simp only [DirTree.node.sizeOf_spec] at hle
                  omega
                cases p with
                | nil => simp at hc
                | cons q qs =>
                    have hdl : (d.1.1 :: q :: qs).dropLast =
                        d.1.1 :: (q :: qs).dropLast := rfl
                    rw [hdl] at hc
                    rcases List.mem_cons.mp hc with hceq | hctail
                    · subst hceq
                      exact pruneDirs_not_excluded excludes dirs hnd d.1 d.2
                    · exact ih d.1.2 hsize hwfd (q :: qs) hp c hctail

/-- Witness for C9 (amended) at a concrete input: a well-formed tree
with an excluded subdirectory `tmp`, a kept subdirectory `docs` and a
root file satisfies the directory-component exclusion invariant. -/
theorem claim_C9_witness :
    TreeWF wfTree ∧ ∀ comps ∈ walk_rel ["tmp"] wfTree,
      ∀ c ∈ comps.dropLast, c ∉ ["tmp"] := by
  have hleafWF : ∀ files : List String, TreeWF (DirTree.node [] files) := by
    intro files
    exact TreeWF.node [] files List.nodup_nil (by intro d hd; simp at hd)
  have hwf : TreeWF wfTree := by
    refine TreeWF.node _ _ (by decide) ?_
    intro d hd
    simp only [wfTree, List.mem_cons, List.mem_singleton] at hd
    rcases hd with h1 | h1 | h1
    · rw [h1]; exact hleafWF ["d.txt"]
    · rw [h1]; exact hleafWF ["a.txt"]
    · simp at h1
  exact ⟨hwf, claim_C9_amended ["tmp"] wfTree hwf⟩

/-- Feeding a pure value into a bind continues with it. -/
theorem pypure_bind {α β : Type} (v : α) (g : α → Except PyErr β) :
    ((pure v : Except PyErr α) >>= g) = g v := rfl

/-- The per-root admission fold of `search_for_new_files` raises
`InputError` exactly when some enumerated path fails the
`os.path.isfile` check in `File.__init__`. -/
theorem search_paths_error_iff (os : OsModel) (cp : CatalogProperties)
    (root : String) :
    ∀ (paths : List String) (s : CatalogState),
      (paths.foldlM (fun st p => do
          let f ← File_init os [PyVal.vstr p, PyVal.vstr root, PyVal.vprops]
          pure (add_file cp os st f)) s =
        (.error .inputError : Except PyErr CatalogState)) ↔
      ∃ p ∈ paths, os.isfile p = false := by
  intro paths
  induction paths with
  | nil =>
      intro s
      rw [List.foldlM_nil]
      constructor
      · intro h; exact Except.noConfusion h
      · rintro ⟨p, hp, _⟩; exact absurd hp (List.not_mem_nil p)
  | cons p rest ih =>
      intro s
      rw [List.foldlM_cons]
      by_cases hp : os.isfile p = true
      · cases hinit : File_init os [PyVal.vstr p, PyVal.vstr root,
            PyVal.vprops] with
        | error e => simp [File_init, hp] at hinit
        | ok v =>
            rw [pybind_ok, pypure_bind, ih (add_file cp os s v)]
            constructor
            · rintro ⟨q, hq, hx⟩; exact ⟨q, List.mem_cons_of_mem p hq, hx⟩
            · rintro ⟨q, hq, hx⟩
              rcases List.mem_cons.mp hq with h1 | h1
              · subst h1; exact absurd hx (by simp [hp])
              · exact ⟨q, h1, hx⟩
      · have hfalse : os.isfile p = false := by
          revert hp; cases os.isfile p <;> simp
        have hv : File_init os [PyVal.vstr p, PyVal.vstr root, PyVal.vprops] =
            .error .inputError := by simp [File_init, hfalse]
        rw [hv, pybind_error, pybind_error]
        constructor
        · intro _; exact ⟨p, List.mem_cons_self p rest, hfalse⟩
        · intro _; rfl

/-- The per-root admission fold succeeds when every enumerated path
still exists. -/
theorem search_paths_ok (os : OsModel) (cp : CatalogProperties)
    (root : String) :
    ∀ (paths : List String) (s : CatalogState),
      (∀ p ∈ paths, os.isfile p = true) →
      ∃ s', paths.foldlM (fun st p => do
          let f ← File_init os [PyVal.vstr p, PyVal.vstr root, PyVal.vprops]
          pure (add_file cp os st f)) s =
        (.ok s' : Except PyErr CatalogState) := by
  intro paths
  induction paths with
  | nil => intro s _; exact ⟨s, rfl⟩
  | cons p rest ih =>
      intro s hall
      have hp : os.isfile p = true := hall p (List.mem_cons_self p rest)
      cases hinit : File_init os [PyVal.vstr p, PyVal.vstr root,
          PyVal.vprops] with
      | error e => simp [File_init, hp] at hinit
      | ok v =>
          obtain ⟨s', hs'⟩ := ih (add_file cp os s v)
            (fun q hq => hall q (List.mem_cons_of_mem p hq))
          refine ⟨s', ?_⟩
          rw [List.foldlM_cons, hinit, pybind_ok, pypure_bind, hs']

/-- `search_root` raises `InputError` exactly when some walked path no
longer exists. -/
theorem search_root_error_iff (os : OsModel) (cp : CatalogProperties)
    (root : String) (t : DirTree) (s : CatalogState) :
    search_root os cp root t s = .error .inputError ↔
      ∃ p ∈ walk_paths cp.exclude_dirs root t, os.isfile p = false :=
  search_paths_error_iff os cp root (walk_paths cp.exclude_dirs root t) s

/-- C5: the claim states a file that vanishes between enumeration and
metadata resolution is skipped and the walk continues.  In the code,
`File.__init__` raises `InputError` on the vanished `r/b` and
`search_for_new_files` has no handler: the whole walk aborts with the
exception (so `r/c` is never admitted), and no skip counter exists. -/
theorem claim_C5_counterexample :
    search_for_new_files osMissingB cpDefault
      [("r", DirTree.node [] ["a", "b", "c"])] ⟨[], []⟩ =
      .error .inputError := by
  have hwp : walk_paths cpDefault.exclude_dirs "r"
      (DirTree.node [] ["a", "b", "c"]) = ["r/a", "r/b", "r/c"] := by
    unfold walk_paths
    rw [walk_rel_leaf]
    rfl
  have hroot : search_root osMissingB cpDefault "r"
      (DirTree.node [] ["a", "b", "c"]) ⟨[], []⟩ = .error .inputError := by
    unfold search_root
    rw [hwp]
    rfl
  unfold search_for_new_files
  rw [List.foldlM_cons, hroot, pybind_error]

/-- C5 (amended): a per-file failure does abort the whole walk —
`search_for_new_files` ends in the propagated `InputError` exactly
when some enumerated path under some search root fails the
`os.path.isfile` check between enumeration and metadata resolution;
there is no skip count and no per-file recovery. -/
theorem claim_C5_amended (os : OsModel) (cp : CatalogProperties)
    (roots : List (String × DirTree)) (s : CatalogState) :
    search_for_new_files os cp roots s = .error .inputError ↔
      ∃ r ∈ roots, ∃ p ∈ walk_paths cp.exclude_dirs r.1 r.2,
        os.isfile p = false := by
  unfold search_for_new_files
  induction roots generalizing s with
  | nil =>
      rw [List.foldlM_nil]
      constructor
      · intro h; exact Except.noConfusion h
      · rintro ⟨r, hr, _⟩; exact absurd hr (List.not_mem_nil r)
  | cons r rest ih =>
      rw [List.foldlM_cons]
      by_cases hbad : ∃ p ∈ walk_paths cp.exclude_dirs r.1 r.2,
          os.isfile p = false
      · have herr : search_root os cp r.1 r.2 s = .error .inputError :=
          (search_root_error_iff os cp r.1 r.2 s).mpr hbad
        rw [herr, pybind_error]
        constructor
        · intro _; exact ⟨r, List.mem_cons_self r rest, hbad⟩
        · intro _; rfl
      · have hall : ∀ p ∈ walk_paths cp.exclude_dirs r.1 r.2,
            os.isfile p = true := by
          intro p hp
          by_contra hcon
          exact hbad ⟨p, hp, by revert hcon; cases os.isfile p <;> simp⟩
        obtain ⟨s', hs'⟩ :=
          search_paths_ok os cp r.1 (walk_paths cp.exclude_dirs r.1 r.2) s hall
        have hsr : search_root os cp r.1 r.2 s = .ok s' := hs'
        rw [hsr, pybind_ok, ih s']
        constructor
        · rintro ⟨r', hr', hx⟩; exact ⟨r', List.mem_cons_of_mem r hr', hx⟩
        · rintro ⟨r', hr', hx⟩
          rcases List.mem_cons.mp hr' with h1 | h1
          · rw [h1] at hx; exact absurd hx hbad
          · exact ⟨r', h1, hx⟩
